import Mathlib

/-!
Verification of the event-trace analysis database core
(`wtf.analysis.db.EventDatabase` and `wtf.analysis.Flow`) as a shallow
embedding.  Definitions are translated from the JavaScript source; the few
collaborators that live outside the analysed files (`wtf.data.EventFlag`
constants, `wtf.analysis.db.ZoneIndex.renumber`, `wtf.analysis.Event.comparer`,
`wtf.analysis.EventFilter`) are modelled from the specification and marked as
such in their doc comments.
-/

namespace WtfDb

/-- Argument schema entry of an event type (`wtf.analysis.EventType` argument:
only the argument name matters for the analysed code). -/
structure ArgDef where
  name : String
deriving Repr, DecidableEq

/-- Interned event schema (`wtf.analysis.EventType`): fully-qualified name,
flag bitset, ordered argument schema. -/
structure EventType where
  name : String
  flags : Nat
  args : List ArgDef
deriving Repr, DecidableEq

/-- Modelled from the spec: `wtf.data.EventFlag` is not under `src/`.  The
spec fixes `flags` as a bitset with an `INTERNAL` bit ("excluded from user
totals and from query result sets"); the concrete bit value is irrelevant,
only its identity matters. -/
def EventFlag.INTERNAL : Nat := 8

/-- Modelled from the spec: `wtf.data.EventFlag` is not under `src/`.  Bit
marking scope-enter event types, used to classify events materialised as
`wtf.analysis.ScopeEvent` instances. -/
def EventFlag.SCOPE_ENTER : Nat := 16

/-- An ingested event (`wtf.analysis.Event`): relative time, event type,
dynamic argument map, assigned database-absolute position, and — for
`wtf.zone#create` events — the identity of the created zone (`e.value`). -/
structure Event where
  time : Int
  eventType : EventType
  args : List (String × String)
  position : Nat
  value : Nat
deriving Repr, DecidableEq

/-- Test of `e.eventType.flags & wtf.data.EventFlag.INTERNAL`. -/
def Event.isInternal (e : Event) : Bool :=
  e.eventType.flags &&& EventFlag.INTERNAL ≠ 0

/-- Test of `e.eventType == this.eventTypes_.scopeLeave`.  The listener interns
the type via `getEventType('wtf.scope#leave')` (the `TraceListener` registry is
external; per spec §4.1 builtin types are interned by name), so type identity
is name identity. -/
def Event.isScopeLeaveType (e : Event) : Bool :=
  e.eventType.name == "wtf.scope#leave"

/-- Test of `e.eventType == this.eventTypes_.zoneCreate`, interned by name as
for `Event.isScopeLeaveType`. -/
def Event.isZoneCreateType (e : Event) : Bool :=
  e.eventType.name == "wtf.zone#create"

/-- Modelled from the spec: whether an event is materialised as a
`wtf.analysis.ScopeEvent` (the `e instanceof wtf.analysis.ScopeEvent` test in
`query`); per spec §3 scope-enter classification is carried by the
`SCOPE_ENTER` flag of the event type. -/
def Event.isScopeEnterEvent (e : Event) : Bool :=
  e.eventType.flags &&& EventFlag.SCOPE_ENTER ≠ 0

/-- Frame index of a zone (`wtf.analysis.db.FrameIndex`); only the stored
frames (opaque here) and their count are relevant to the analysed code. -/
structure FrameIndex where
  frames : List Nat
deriving Repr, DecidableEq

/-- The `getCount()` accessor of a frame index. -/
def FrameIndex.getCount (f : FrameIndex) : Nat :=
  f.frames.length

/-- Zone index (`wtf.analysis.db.ZoneIndex`): the zone identity returned by
`getZone()`, the inserting flag, the stored event list and the per-zone frame
index. -/
structure ZoneIndex where
  zone : Nat
  inserting : Bool
  events : List Event
  frameIndex : FrameIndex
deriving Repr, DecidableEq

/-- The `getFrameIndex()` accessor of a zone index. -/
def ZoneIndex.getFrameIndex (z : ZoneIndex) : FrameIndex :=
  z.frameIndex

/-- Per-name event index (`wtf.analysis.db.EventIndex`).  The `id` field
models JavaScript object identity so that "the same index object" is
expressible. -/
structure EventIndex where
  id : Nat
  eventName : String
  inserting : Bool
  events : List Event
deriving Repr, DecidableEq

/-- The `getEventName()` accessor of an event index. -/
def EventIndex.getEventName (x : EventIndex) : String :=
  x.eventName

/-- Summary index (`wtf.analysis.db.SummaryIndex`).  Modelled from the spec:
its internals (buckets, first/last times) are not under `src/`; only its role
as an insertion target matters here, so it records the inserted events. -/
structure SummaryIndex where
  inserting : Bool
  events : List Event
deriving Repr, DecidableEq

/-- Reference into the listener's `eventTargets_` list: the summary index, the
`i`-th zone index or the `i`-th event index of the database. -/
inductive TargetRef where
  | summary : TargetRef
  | zone (i : Nat) : TargetRef
  | evIndex (i : Nat) : TargetRef
deriving Repr, DecidableEq

/-- Combined state of the `EventDatabase` and its private `Listener_`:
`sources_`, `totalEventCount_`, `summaryIndex_`, `zoneIndices_`,
`eventIndices_` on the database side and `eventTargets_`, `insertingEvents_`,
`insertedEventCount_`, `beginningZoneCount_` and the dirty time window on the
listener side.  `nextIndexId` dispenses identity tokens for newly allocated
event indices. -/
structure DbState where
  sources : List Nat
  totalEventCount : Nat
  summaryIndex : SummaryIndex
  zoneIndices : List ZoneIndex
  eventIndices : List EventIndex
  nextIndexId : Nat
  eventTargets : List TargetRef
  insertingEvents : Bool
  insertedEventCount : Nat
  beginningZoneCount : Nat
  dirtyTimeStart : Int
  dirtyTimeEnd : Int
deriving Repr, DecidableEq

/-- Notifications emitted by the database
(`wtf.analysis.db.EventDatabase.EventType` plus `INVALIDATED`). -/
inductive DbEvent where
  | sourcesChanged : DbEvent
  | sourceError (message : String) (detail : Option String) : DbEvent
  | zonesAdded (zones : List ZoneIndex) : DbEvent
  | invalidated : DbEvent
deriving Repr, DecidableEq

/-- State right after the `EventDatabase` constructor ran: no sources, zero
`totalEventCount_`, empty indices, idle listener. -/
def initialDbState : DbState where
  sources := []
  totalEventCount := 0
  summaryIndex := ⟨false, []⟩
  zoneIndices := []
  eventIndices := []
  nextIndexId := 0
  eventTargets := []
  insertingEvents := false
  insertedEventCount := 0
  beginningZoneCount := 0
  dirtyTimeStart := 0
  dirtyTimeEnd := 0

/-- Sentinel for `Number.MAX_VALUE`; only used to reset the dirty time window,
which no analysed property depends on. -/
def jsNumberMaxValue : Int := 2 ^ 1024

/-- Sentinel for `Number.MIN_VALUE` in the dirty-window reset; see
`jsNumberMaxValue`. -/
def jsNumberMinValue : Int := -(2 ^ 1024)

/-- Replace the element at an index, leaving the list unchanged when the index
is out of range (JavaScript array element update on the target lists). -/
def modifyAt (f : α → α) : Nat → List α → List α
  | _, [] => []
  | 0, x :: xs => f x :: xs
  | n + 1, x :: xs => x :: modifyAt f n xs

/-- The `insertEvent` operation of a zone index appends to its event list
(spec §4.5: "insertEvent(e) appends to the internal event list"). -/
def ZoneIndex.insertEvent (z : ZoneIndex) (e : Event) : ZoneIndex :=
  { z with events := z.events ++ [e] }

/-- Modelled from the spec: `EventIndex.insertEvent` is not under `src/`; per
§4.2 the index stores the events whose type name matches its own name. -/
def EventIndex.insertEvent (x : EventIndex) (e : Event) : EventIndex :=
  if x.eventName == e.eventType.name then { x with events := x.events ++ [e] }
  else x

/-- The summary index records every inserted event (spec §4.7: "the summary
index must see every event"). -/
def SummaryIndex.insertEvent (s : SummaryIndex) (e : Event) : SummaryIndex :=
  { s with events := s.events ++ [e] }

/-- Dispatch of one event to one entry of the target list
(`this.eventTargets_[n].insertEvent(e)`). -/
def insertIntoTarget (st : DbState) (e : Event) (r : TargetRef) : DbState :=
  match r with
  | TargetRef.summary => { st with summaryIndex := st.summaryIndex.insertEvent e }
  | TargetRef.zone i =>
      { st with zoneIndices := modifyAt (fun z => z.insertEvent e) i st.zoneIndices }
  | TargetRef.evIndex i =>
      { st with eventIndices := modifyAt (fun x => x.insertEvent e) i st.eventIndices }

/-- The `beginInserting()` call on one entry of the target list. -/
def beginInsertingTarget (st : DbState) (r : TargetRef) : DbState :=
  match r with
  | TargetRef.summary => { st with summaryIndex := { st.summaryIndex with inserting := true } }
  | TargetRef.zone i =>
      { st with zoneIndices := modifyAt (fun z => { z with inserting := true }) i st.zoneIndices }
  | TargetRef.evIndex i =>
      { st with eventIndices := modifyAt (fun x => { x with inserting := true }) i st.eventIndices }

/-- Stable comparison by event time used when an index re-sorts on
`endInserting` (spec §4.5: "stably sorted by (time, insertion-order)"). -/
def timeLE (a b : Event) : Bool :=
  decide (a.time ≤ b.time)

/-- Modelled from the spec: `ZoneIndex.endInserting` is not under `src/`.  Per
§4.5 it leaves the mutable phase and stably sorts the event list by
`(time, insertion-order)`; the scope-forest rebuild does not affect the event
list and is omitted. -/
def ZoneIndex.endInserting (z : ZoneIndex) : ZoneIndex :=
  { z with inserting := false, events := z.events.mergeSort timeLE }

/-- Modelled from the spec: `EventIndex.endInserting` (§4.2) sorts the stored
events and leaves the mutable phase. -/
def EventIndex.endInserting (x : EventIndex) : EventIndex :=
  { x with inserting := false, events := x.events.mergeSort timeLE }

/-- The `endInserting()` call on one entry of the target list. -/
def endInsertingTarget (st : DbState) (r : TargetRef) : DbState :=
  match r with
  | TargetRef.summary => { st with summaryIndex := { st.summaryIndex with inserting := false } }
  | TargetRef.zone i =>
      { st with zoneIndices := modifyAt ZoneIndex.endInserting i st.zoneIndices }
  | TargetRef.evIndex i =>
      { st with eventIndices := modifyAt EventIndex.endInserting i st.eventIndices }

/-- Modelled from the spec: `wtf.analysis.db.ZoneIndex.prototype.renumber` is
not under `src/`.  Per §4.5 it "assigns positions to all events in time order
starting from startPosition and returns the next free position"; between
batches the zone's event list is kept in time order (`ZoneIndex.endInserting`),
so positions are assigned sequentially along the stored list. -/
def assignPositions : List Event → Nat → List Event
  | [], _ => []
  | e :: rest, pos => { e with position := pos } :: assignPositions rest (pos + 1)

/-- The `renumber(startPosition)` operation of a zone index; see
`assignPositions`. -/
def ZoneIndex.renumber (z : ZoneIndex) (pos : Nat) : ZoneIndex × Nat :=
  ({ z with events := assignPositions z.events pos }, pos + z.events.length)

/-- The loop of `EventDatabase.prototype.renumber_` over the zone indices in
stored order, threading the running position. -/
def renumberZones : List ZoneIndex → Nat → List ZoneIndex
  | [], _ => []
  | z :: zs, pos => (z.renumber pos).1 :: renumberZones zs (z.renumber pos).2

/-- Embedding of `EventDatabase.prototype.renumber_`: position 0 is reserved for the
database itself, so zone renumbering starts at 1. -/
def EventDatabase.renumber (st : DbState) : DbState :=
  { st with zoneIndices := renumberZones st.zoneIndices 1 }

/-- Embedding of `EventDatabase.prototype.getNodePosition`: the database is always at
position 0. -/
def EventDatabase.getNodePosition : Nat := 0

/-- The scan of `EventDatabase.prototype.getFirstFrameIndex` over the zone
indices: the first frame index whose `getCount()` is truthy is returned,
otherwise `null`. -/
def getFirstFrameIndexFrom : List ZoneIndex → Option FrameIndex
  | [] => none
  | z :: zs =>
      if z.getFrameIndex.getCount ≠ 0 then some z.getFrameIndex
      else getFirstFrameIndexFrom zs

/-- Embedding of `EventDatabase.prototype.getFirstFrameIndex`. -/
def EventDatabase.getFirstFrameIndex (st : DbState) : Option FrameIndex :=
  getFirstFrameIndexFrom st.zoneIndices

/-- The scan of `EventDatabase.prototype.getEventIndex` over the registered
event indices: the first index whose name matches is returned, otherwise
`null`. -/
def getEventIndexFrom : List EventIndex → String → Option EventIndex
  | [], _ => none
  | x :: xs, eventName =>
      if x.eventName == eventName then some x else getEventIndexFrom xs eventName

/-- Embedding of `EventDatabase.prototype.getEventIndex`. -/
def EventDatabase.getEventIndex (st : DbState) (eventName : String) : Option EventIndex :=
  getEventIndexFrom st.eventIndices eventName

/-- Embedding of `EventDatabase.prototype.createEventIndex`.  `goog.async.Deferred.succeed`
is modelled as the immediately-available value; a fresh index receives a fresh
identity token and an empty event list (the source marks retroactive
population as an unresolved TODO and leaves the new index empty). -/
def EventDatabase.createEventIndex (st : DbState) (eventName : String) :
    DbState × EventIndex :=
  match EventDatabase.getEventIndex st eventName with
  | some eventIndex => (st, eventIndex)
  | none =>
      let eventIndex : EventIndex := ⟨st.nextIndexId, eventName, false, []⟩
      ({ st with
          eventIndices := st.eventIndices ++ [eventIndex],
          nextIndexId := st.nextIndexId + 1 },
        eventIndex)

/-- Embedding of `Listener_.prototype.traceEvent`: widen the dirty window, count the event,
bump `totalEventCount_` unless the type is `INTERNAL` or `wtf.scope#leave`,
lazily create a zone index on a `wtf.zone#create` event naming an unseen zone
(appending it to both the zone list and the in-flight target list and placing
it into inserting mode), and finally fan the event out to every target. -/
def Listener.traceEvent (st : DbState) (e : Event) : DbState :=
  let st1 : DbState :=
    { st with
        dirtyTimeStart := if e.time < st.dirtyTimeStart then e.time else st.dirtyTimeStart,
        dirtyTimeEnd := if e.time > st.dirtyTimeEnd then e.time else st.dirtyTimeEnd,
        insertedEventCount := st.insertedEventCount + 1,
        totalEventCount :=
          if !(e.isInternal || e.isScopeLeaveType) then st.totalEventCount + 1
          else st.totalEventCount }
  let st3 : DbState :=
    if e.isZoneCreateType then
      if st1.zoneIndices.any (fun z => z.zone == e.value) then st1
      else
        { st1 with
            zoneIndices := st1.zoneIndices ++ [⟨e.value, true, [], ⟨[]⟩⟩],
            eventTargets := st1.eventTargets ++ [TargetRef.zone st1.zoneIndices.length] }
    else st1
  st3.eventTargets.foldl (fun s r => insertIntoTarget s e r) st3

/-- Repeated `traceEvent` over a sequence of events. -/
def Listener.ingest (st : DbState) (es : List Event) : DbState :=
  es.foldl Listener.traceEvent st

/-- Embedding of `Listener_.prototype.beginEventBatch`: snapshot the zone count, reset the
dirty window, rebuild the target list as `[summary, ...zones, ...eventIndices]`
and call `beginInserting()` on each target in order. -/
def Listener.beginEventBatch (st : DbState) : DbState :=
  let targets : List TargetRef :=
    TargetRef.summary ::
      ((List.range st.zoneIndices.length).map TargetRef.zone ++
        (List.range st.eventIndices.length).map TargetRef.evIndex)
  let st1 : DbState :=
    { st with
        insertingEvents := true,
        beginningZoneCount := st.zoneIndices.length,
        dirtyTimeStart := jsNumberMaxValue,
        dirtyTimeEnd := jsNumberMinValue,
        eventTargets := targets }
  targets.foldl beginInsertingTarget st1

/-- Downward loop `for (n = length - 1; n >= 0; n--) eventTargets_[n].endInserting()`
over the first `n` entries of the target list, returning the final state and
the sequence of targets on which `endInserting()` was invoked, in call
order. -/
def endInsertingDownFrom (rs : List TargetRef) (st : DbState) :
    Nat → DbState × List TargetRef
  | 0 => (st, [])
  | n + 1 =>
      let r := rs.getD n TargetRef.summary
      let rest := endInsertingDownFrom rs (endInsertingTarget st r) n
      (rest.1, r :: rest.2)

/-- Embedding of `Listener_.prototype.endEventBatch`: leave the insertion block, call
`endInserting()` on the targets in reverse order, renumber the database, emit
`ZONES_ADDED` with the zones added since the batch began when the zone count
changed, emit `INVALIDATED` (resetting the inserted-event counter) when any
event was inserted, and clear the target list.  Returns the new state, the
emitted notifications in order, and the sequence of `endInserting()` calls. -/
def Listener.endEventBatch (st : DbState) : DbState × List DbEvent × List TargetRef :=
  let st0 : DbState := { st with insertingEvents := false }
  let ended := endInsertingDownFrom st0.eventTargets st0 st0.eventTargets.length
  let st2 : DbState := EventDatabase.renumber ended.1
  let zonesEvents : List DbEvent :=
    if st.beginningZoneCount ≠ st2.zoneIndices.length then
      [DbEvent.zonesAdded (st2.zoneIndices.drop st.beginningZoneCount)]
    else []
  let invalidatedEvents : List DbEvent :=
    if st2.insertedEventCount ≠ 0 then [DbEvent.invalidated] else []
  let st3 : DbState :=
    if st2.insertedEventCount ≠ 0 then { st2 with insertedEventCount := 0 } else st2
  ({ st3 with eventTargets := [] }, zonesEvents ++ invalidatedEvents, ended.2)

/-- Classification outcome of `EventDatabase.prototype.query`: substring
filter, regular-expression filter, or tree (xpath) expression. -/
inductive QueryKind where
  | substringFilter : QueryKind
  | regexFilter : QueryKind
  | treeExpression : QueryKind
deriving Repr, DecidableEq

/-- Character class of the JavaScript regex metacharacter `.`: any character
that is not a line terminator. -/
def isDotChar (c : Char) : Bool :=
  !(c = '\n' || c = '\r' || c = '\u2028' || c = '\u2029')

/-- Character class of `[gim]`. -/
def isFlagChar (c : Char) : Bool :=
  c = 'g' || c = 'i' || c = 'm'

/-- Matcher for the regex fragment `(.*)\/([gim]*)$`: the characters split
into further body characters, a closing slash and trailing flags. -/
def matchCloseFlags : List Char → Bool
  | [] => false
  | c :: rest =>
      (c == '/' && rest.all isFlagChar) || (isDotChar c && matchCloseFlags rest)

/-- Matcher for the regex fragment `(.+)\/([gim]*)$`: at least one body
character, then `matchCloseFlags`. -/
def matchBodyCloseFlags : List Char → Bool
  | [] => false
  | c :: rest => isDotChar c && matchCloseFlags rest

/-- The test `/^\/(.+)\/([gim]*)$/.test(expr)` from
`EventDatabase.prototype.query`. -/
def regexFilterTest (expr : String) : Bool :=
  match expr.data with
  | '/' :: rest => matchBodyCloseFlags rest
  | _ => false

/-- The classification at the head of `EventDatabase.prototype.query`: a
string that does not start with `/` (for the empty string `charAt(0)` yields
the empty string, which also differs from `/`) and contains no `(` is a
substring filter; otherwise a string matching `^\/(.+)\/([gim]*)$` is a regex
filter; otherwise the string is treated as an xpath expression. -/
def classifyQuery (expr : String) : QueryKind :=
  if expr.data.head? ≠ some '/' ∧ '(' ∉ expr.data then QueryKind.substringFilter
  else if regexFilterTest expr then QueryKind.regexFilter
  else QueryKind.treeExpression

/-- Specification-side reading of the filter-pattern sentence: the expression
is `/<body>/<flags>` where the body is a nonempty run of pattern characters
(the `.` of the pattern does not cross line terminators) and the flags are
drawn from `g`, `i`, `m`. -/
def MatchesRegexPattern (expr : String) : Prop :=
  ∃ body flags : List Char,
    expr.data = '/' :: (body ++ '/' :: flags) ∧
    body ≠ [] ∧ (∀ c ∈ body, isDotChar c = true) ∧ (∀ c ∈ flags, isFlagChar c = true)

/-- An element of a filter-query result: either the event itself or, for a
scope-enter event, its reconstructed scope (`result.push(e.scope)`); the scope
is identified by the enter event it was reconstructed from. -/
inductive ResultItem where
  | plain (e : Event) : ResultItem
  | scopeOf (e : Event) : ResultItem
deriving Repr, DecidableEq

/-- The event a result item originates from. -/
def ResultItem.event : ResultItem → Event
  | ResultItem.plain e => e
  | ResultItem.scopeOf e => e

/-- The `!evaluator || evaluator(e)` test of the filter loop: a null evaluator
means match-all. -/
def evaluatorMatches (evaluator : Option (Event → Bool)) (e : Event) : Bool :=
  match evaluator with
  | none => true
  | some f => f e

/-- Modelled from the spec: `wtf.analysis.Event.comparer` is not under `src/`;
the spec fixes the database event comparator as (time ascending, position
ascending). -/
def eventComparerLE (a b : ResultItem) : Bool :=
  decide (a.event.time < b.event.time ∨
    (a.event.time = b.event.time ∧ a.event.position ≤ b.event.position))

/-- One zone's contribution to a filter query: iterate the zone's stored
events (the `forEach(Number.MIN_VALUE, Number.MAX_VALUE, ...)` call;
`ZoneIndex.forEach` is not under `src/` and is modelled from the spec sentence
"Iterate every zone index over the full time range"), skip `INTERNAL` events,
keep those matching the evaluator, replacing scope-enter events by their
reconstructed scope. -/
def filterZoneEvents (evaluator : Option (Event → Bool)) (z : ZoneIndex) :
    List ResultItem :=
  z.events.filterMap fun e =>
    if e.isInternal then none
    else if evaluatorMatches evaluator e then
      some (if e.isScopeEnterEvent then ResultItem.scopeOf e else ResultItem.plain e)
    else none

/-- The filter path of `EventDatabase.prototype.query` (lines 353-370): gather
matching items across every zone index, then sort with the event
comparator. -/
def runFilterQuery (zones : List ZoneIndex) (evaluator : Option (Event → Bool)) :
    List ResultItem :=
  (zones.flatMap (filterZoneEvents evaluator)).mergeSort eventComparerLE

/-- Modelled from the spec: outcome of
`wtf.analysis.EventFilter.prototype.setFromString`, which is not under `src/`.
Per §4.8 parsing either fails (`Result.FAILED`, for an unparsable regex) or
produces a filter whose evaluator is "a pure predicate Event → bool, or null
meaning match all". -/
inductive FilterParse where
  | failed : FilterParse
  | ok (evaluator : Option (Event → Bool)) : FilterParse

/-- Compiled form carried by a query result: the source string of the filter
evaluator (`filter.getEvaluator().toString()`) or the xpath expression. -/
inductive CompiledExpr where
  | filterSource (s : String) : CompiledExpr
  | xpathExpr (s : String) : CompiledExpr
deriving Repr, DecidableEq

/-- Value carried by a query result: filter items or xpath nodes (opaque). -/
inductive QueryValue where
  | items (l : List ResultItem) : QueryValue
  | nodes (l : List Nat) : QueryValue
deriving Repr, DecidableEq

/-- Embedding of `wtf.analysis.db.QueryResult`: the original expression, the compiled form,
the evaluation duration and the result sequence. -/
structure QueryResult where
  expr : String
  compiled : CompiledExpr
  duration : Int
  value : QueryValue
deriving Repr, DecidableEq

/-- Embedding of `EventDatabase.prototype.query`.  The external collaborators are
parameters: `parseFilter` models `EventFilter.setFromString`, `showEvaluator`
models `Function.prototype.toString` on the evaluator, `xpathEval` models
`wgxpath` evaluation, and `startTime`/`endTime` model the two `wtf.now()`
samples.  A failed filter parse throws `Invalid regex.`; on the filter path
with a null (match-all) evaluator the expression
`filter.getEvaluator().toString()` dereferences null and throws a TypeError —
note that the filter loop itself explicitly supports a null evaluator.  Throws
are modelled as `Except.error`. -/
def EventDatabase.query (parseFilter : String → FilterParse)
    (showEvaluator : (Event → Bool) → String) (xpathEval : String → List Nat)
    (st : DbState) (expr : String) (startTime endTime : Int) :
    Except String QueryResult :=
  if classifyQuery expr = QueryKind.treeExpression then
    Except.ok
      ⟨expr, CompiledExpr.xpathExpr (if expr = "" then "." else expr),
        endTime - startTime, QueryValue.nodes (xpathEval expr)⟩
  else
    match parseFilter expr with
    | FilterParse.failed => Except.error "Invalid regex."
    | FilterParse.ok evaluator =>
        let result := runFilterQuery st.zoneIndices evaluator
        match evaluator with
        | none => Except.error "TypeError: null has no toString"
        | some f =>
            Except.ok
              ⟨expr, CompiledExpr.filterSource (showEvaluator f),
                endTime - startTime, QueryValue.items result⟩

/-- Modelled from the spec: a minimal instance of
`EventFilter.setFromString` used to witness the filter path.  An empty filter
string produces a cleared filter whose evaluator is null ("null meaning match
all", §4.8); any other string produces a substring evaluator over the event
type name; no string fails to parse. -/
def specParseFilter (s : String) : FilterParse :=
  if s = "" then FilterParse.ok none
  else FilterParse.ok (some fun e => (e.eventType.name.splitOn s).length != 1)

/-- Embedding of `wtf.analysis.Flow`: flow id, optional parent back-reference (by id),
branch/extend/terminate events and the lazily allocated data-event list
(`dataEvents_` starts as `null`). -/
structure Flow where
  flowId : Nat
  parentFlowId : Option Nat
  branchEvent : Option Event
  extendEvents : List Event
  terminateEvent : Option Event
  dataEvents : Option (List Event)
deriving Repr, DecidableEq

/-- Embedding of `Flow.prototype.addDataEvent`: allocate the list on first use, then
append. -/
def Flow.addDataEvent (f : Flow) (e : Event) : Flow :=
  match f.dataEvents with
  | none => { f with dataEvents := some [e] }
  | some l => { f with dataEvents := some (l ++ [e]) }

/-- A JavaScript object used as a key/value map, as an insertion-ordered
association list; a stored value may be `undefined` (`none`). -/
abbrev FlowData := List (String × Option String)

/-- JavaScript property write `d[k] = v`: overwrite in place when the key
exists, otherwise append. -/
def jsSet (d : FlowData) (k : String) (v : Option String) : FlowData :=
  if d.any (fun p => p.1 == k) then
    d.map fun p => if p.1 == k then (k, v) else p
  else d ++ [(k, v)]

/-- JavaScript property read `d[k]`: `none` when the key is absent. -/
def jsGet (d : FlowData) (k : String) : Option (Option String) :=
  (d.find? (fun p => p.1 == k)).map (fun p => p.2)

/-- Argument lookup `e.args[k]`: `none` models `undefined`. -/
def argsGet (args : List (String × String)) (k : String) : Option String :=
  (args.find? (fun p => p.1 == k)).map (fun p => p.2)

/-- JavaScript property-key coercion: an `undefined` key indexes the property
named `undefined`. -/
def jsKeyOf : Option String → String
  | none => "undefined"
  | some s => s

/-- The key/value pairs one data event contributes in `Flow.prototype.getData`:
an `INTERNAL` builtin appender contributes the single pair taken from its
`name` and `value` arguments; a custom appender contributes every schema
argument except the first (the flow id). -/
def flowDataPairs (e : Event) : List (String × Option String) :=
  if e.isInternal then
    [(jsKeyOf (argsGet e.args "name"), argsGet e.args "value")]
  else
    (e.eventType.args.drop 1).map fun a => (a.name, argsGet e.args a.name)

/-- The body of the `getData` loop for one data event. -/
def mergeDataEvent (d : FlowData) (e : Event) : FlowData :=
  if e.isInternal then
    jsSet d (jsKeyOf (argsGet e.args "name")) (argsGet e.args "value")
  else
    (e.eventType.args.drop 1).foldl (fun d2 a => jsSet d2 a.name (argsGet e.args a.name)) d

/-- Embedding of `Flow.prototype.getData`: fold the data-event merges over the data-event
list in insertion order, starting from the empty object. -/
def Flow.getData (f : Flow) : FlowData :=
  match f.dataEvents with
  | none => []
  | some evs => evs.foldl mergeDataEvent []

/-- Sequential `jsSet` of a list of key/value pairs. -/
def setAll (d : FlowData) (ps : List (String × Option String)) : FlowData :=
  ps.foldl (fun d2 p => jsSet d2 p.1 p.2) d

theorem insertIntoTarget_totalEventCount (s : DbState) (e : Event) (r : TargetRef) :
    (insertIntoTarget s e r).totalEventCount = s.totalEventCount := by
  cases r <;> rfl

theorem dispatch_totalEventCount (e : Event) (rs : List TargetRef) (s : DbState) :
    (rs.foldl (fun s2 r => insertIntoTarget s2 e r) s).totalEventCount =
      s.totalEventCount := by
  induction rs generalizing s with
  | nil => rfl
  | cons r rs ih => rw [List.foldl_cons, ih, insertIntoTarget_totalEventCount]

theorem traceEvent_totalEventCount (st : DbState) (e : Event) :
    (Listener.traceEvent st e).totalEventCount =
      (if e.isInternal || e.isScopeLeaveType then st.totalEventCount
       else st.totalEventCount + 1) := by
  unfold Listener.traceEvent
  rw [dispatch_totalEventCount]
  by_cases h : (e.isInternal || e.isScopeLeaveType) = true
  all_goals simp [h, apply_ite DbState.totalEventCount]

theorem ingest_totalEventCount (st : DbState) (es : List Event) :
    (Listener.ingest st es).totalEventCount =
      st.totalEventCount +
        (es.filter fun e => !(e.isInternal || e.isScopeLeaveType)).length := by
  induction es generalizing st with
  | nil => simp [Listener.ingest]
  | cons e es ih =>
    have step : Listener.ingest st (e :: es) =
        Listener.ingest (Listener.traceEvent st e) es := rfl
    rw [step, ih, traceEvent_totalEventCount]
    by_cases h1 : e.isInternal = true
    · simp [List.filter_cons, h1]
    · by_cases h2 : e.isScopeLeaveType = true
      · simp [List.filter_cons, h1, h2]
      · simp [List.filter_cons, h1, h2]
        omega

theorem length_filter_not_eq (p : α → Bool) (l : List α) :
    (l.filter fun a => !(p a)).length = l.length - (l.filter p).length := by
  induction l with
  | nil => simp
  | cons a l ih =>
    have hle := List.length_filter_le p l
    by_cases h : p a = true
    all_goals simp [List.filter_cons, h, ih]
    all_goals omega

/-- Claim C1: every `traceEvent` increments the database `totalEventCount` by
exactly one unless the event type has the `INTERNAL` flag or is
`wtf.scope#leave`, so after any ingest sequence `totalEventCount` has grown by
the number of ingested events minus those with the `INTERNAL` flag or type
`wtf.scope#leave`. -/
theorem totalEventCount_counts_ingested_events (st : DbState) (es : List Event) :
    (Listener.ingest st es).totalEventCount =
      st.totalEventCount +
        (es.length - (es.filter fun e => e.isInternal || e.isScopeLeaveType).length) ∧
    ∀ e : Event,
      (Listener.traceEvent st e).totalEventCount =
        (if e.isInternal || e.isScopeLeaveType then st.totalEventCount
         else st.totalEventCount + 1) := by
  refine ⟨?_, fun e => traceEvent_totalEventCount st e⟩
  rw [ingest_totalEventCount, length_filter_not_eq]

theorem getEventIndexFrom_append_of_none (xs : List EventIndex) (name : String)
    (x : EventIndex) (h : getEventIndexFrom xs name = none) :
    getEventIndexFrom (xs ++ [x]) name =
      (if x.eventName == name then some x else none) := by
  induction xs with
  | nil => simp [getEventIndexFrom]
  | cons y ys ih =>
    rw [getEventIndexFrom] at h
    rw [List.cons_append, getEventIndexFrom]
    by_cases hy : (y.eventName == name) = true
    · rw [if_pos hy] at h
      exact absurd h (by simp)
    · rw [if_neg hy] at h ⊢
      exact ih h

/-- Claim C5: `createEventIndex` is idempotent — when an index with the given
name already exists it is returned unchanged and no new index is created, so
two calls with the same name yield the same index object and the second call
leaves the database state untouched. -/
theorem createEventIndex_idempotent (st : DbState) (name : String) :
    (EventDatabase.createEventIndex (EventDatabase.createEventIndex st name).1 name).2 =
      (EventDatabase.createEventIndex st name).2 ∧
    (EventDatabase.createEventIndex (EventDatabase.createEventIndex st name).1 name).1 =
      (EventDatabase.createEventIndex st name).1 := by
  cases h : EventDatabase.getEventIndex st name with
  | some idx => simp [EventDatabase.createEventIndex, h]
  | none =>
    have h2 : EventDatabase.getEventIndex
        { st with
            eventIndices := st.eventIndices ++ [⟨st.nextIndexId, name, false, []⟩],
            nextIndexId := st.nextIndexId + 1 } name =
        some ⟨st.nextIndexId, name, false, []⟩ := by
      unfold EventDatabase.getEventIndex at h ⊢
      rw [getEventIndexFrom_append_of_none _ _ _ h]
      simp
    simp [EventDatabase.createEventIndex, h, h2]

theorem getFirstFrameIndexFrom_eq_find (zs : List ZoneIndex) :
    getFirstFrameIndexFrom zs =
      (zs.find? fun z => z.getFrameIndex.getCount != 0).map ZoneIndex.getFrameIndex := by
  induction zs with
  | nil => rfl
  | cons z zs ih =>
    by_cases h : z.getFrameIndex.getCount = 0
    · rw [getFirstFrameIndexFrom, if_neg (by simp [h]), List.find?_cons, ih]
      have hb : (z.getFrameIndex.getCount != 0) = false := by simp [h]
      rw [hb]
    · rw [getFirstFrameIndexFrom, if_pos h, List.find?_cons]
      have hb : (z.getFrameIndex.getCount != 0) = true := by simp [h]
      rw [hb]
      rfl

/-- Claim C10: `getFirstFrameIndex()` returns the frame index of the first
zone index, in stored zone order, whose frame index holds at least one frame;
it returns `null` exactly when every zone's frame index is empty (in
particular when there are no zones), and it never returns an empty frame
index. -/
theorem getFirstFrameIndex_first_nonempty (st : DbState) :
    EventDatabase.getFirstFrameIndex st =
      (st.zoneIndices.find? fun z => z.getFrameIndex.getCount != 0).map
        ZoneIndex.getFrameIndex ∧
    (∀ fi, EventDatabase.getFirstFrameIndex st = some fi → fi.getCount ≠ 0) ∧
    (EventDatabase.getFirstFrameIndex st = none ↔
      ∀ z ∈ st.zoneIndices, z.getFrameIndex.getCount = 0) := by
  refine ⟨getFirstFrameIndexFrom_eq_find st.zoneIndices, ?_, ?_⟩
  · intro fi hfi
    rw [EventDatabase.getFirstFrameIndex, getFirstFrameIndexFrom_eq_find] at hfi
    rcases Option.map_eq_some'.mp hfi with ⟨z, hz, hzfi⟩
    have := List.find?_some hz
    simp only [bne_iff_ne, ne_eq] at this
    rw [← hzfi]
    exact this
  · rw [EventDatabase.getFirstFrameIndex, getFirstFrameIndexFrom_eq_find]
    constructor
    · intro hnone z hz
      rcases Option.map_eq_none'.mp hnone with hfind
      have := List.find?_eq_none.mp hfind z hz
      simpa using this
    · intro hall
      rw [Option.map_eq_none']
      exact List.find?_eq_none.mpr fun z hz => by simp [hall z hz]

theorem matchCloseFlags_iff (l : List Char) :
    matchCloseFlags l = true ↔
      ∃ b f, l = b ++ '/' :: f ∧ (∀ c ∈ b, isDotChar c = true) ∧
        (∀ c ∈ f, isFlagChar c = true) := by
  induction l with
  | nil =>
    constructor
    · intro h
      exact absurd h (by simp [matchCloseFlags])
    · rintro ⟨b, f, h, -, -⟩
      exact absurd h (by cases b <;> simp)
  | cons c rest ih =>
    rw [matchCloseFlags]
    constructor
    · intro h
      simp only [Bool.or_eq_true, Bool.and_eq_true] at h
      rcases h with ⟨hc, hf⟩ | ⟨hc, hm⟩
      · refine ⟨[], rest, by simp [beq_iff_eq.mp hc], by simp, ?_⟩
        intro x hx
        exact List.all_eq_true.mp hf x hx
      ·
        rcases ih.mp hm with ⟨b, f, hbf, hb, hf⟩
        refine ⟨c :: b, f, by rw [hbf]; rfl, ?_, hf⟩
        intro x hx
        rcases List.mem_cons.mp hx with h1 | h1
        · rw [h1]; exact hc
        · exact hb x h1
    · rintro ⟨b, f, hbf, hb, hf⟩
      cases b with
      | nil =>
        simp only [List.nil_append, List.cons.injEq] at hbf
        rcases hbf with ⟨hc, hrest⟩
        simp only [Bool.or_eq_true, Bool.and_eq_true]
        left
        refine ⟨beq_iff_eq.mpr hc, List.all_eq_true.mpr ?_⟩
        rw [hrest]
        exact hf
      | cons b0 bs =>
        simp only [List.cons_append, List.cons.injEq] at hbf
        rcases hbf with ⟨hc, hrest⟩
        simp only [Bool.or_eq_true, Bool.and_eq_true]
        right
        constructor
        · rw [hc]
          exact hb b0 (List.mem_cons_self _ _)
        · exact ih.mpr ⟨bs, f, hrest, fun x hx => hb x (List.mem_cons_of_mem _ hx), hf⟩

theorem matchBodyCloseFlags_iff (l : List Char) :
    matchBodyCloseFlags l = true ↔
      ∃ b f, l = b ++ '/' :: f ∧ b ≠ [] ∧ (∀ c ∈ b, isDotChar c = true) ∧
        (∀ c ∈ f, isFlagChar c = true) := by
  cases l with
  | nil =>
    constructor
    · intro h
      exact absurd h (by simp [matchBodyCloseFlags])
    · rintro ⟨b, f, h, hbne, -, -⟩
      cases b <;> simp_all
  | cons c rest =>
    rw [matchBodyCloseFlags]
    constructor
    · intro h
      simp only [Bool.and_eq_true] at h
      rcases h with ⟨hc, hm⟩
      rcases (matchCloseFlags_iff rest).mp hm with ⟨b, f, hbf, hb, hf⟩
      refine ⟨c :: b, f, by rw [hbf]; rfl, by simp, ?_, hf⟩
      intro x hx
      rcases List.mem_cons.mp hx with h1 | h1
      · rw [h1]; exact hc
      · exact hb x h1
    · rintro ⟨b, f, hbf, hbne, hb, hf⟩
      cases b with
      | nil => exact absurd rfl hbne
      | cons b0 bs =>
        simp only [List.cons_append, List.cons.injEq] at hbf
        rcases hbf with ⟨hc, hrest⟩
        simp only [Bool.and_eq_true]
        refine ⟨by rw [hc]; exact hb b0 (List.mem_cons_self _ _), ?_⟩
        exact (matchCloseFlags_iff rest).mpr
          ⟨bs, f, hrest, fun x hx => hb x (List.mem_cons_of_mem _ hx), hf⟩

theorem regexFilterTest_iff (expr : String) :
    regexFilterTest expr = true ↔ MatchesRegexPattern expr := by
  unfold regexFilterTest MatchesRegexPattern
  constructor
  · intro h
    split at h
    · next rest heq =>
      rcases (matchBodyCloseFlags_iff rest).mp h with ⟨b, f, hbf, hbne, hb, hf⟩
      exact ⟨b, f, by rw [heq, hbf], hbne, hb, hf⟩
    · exact absurd h (by simp)
  · rintro ⟨b, f, hbf, hbne, hb, hf⟩
    split
    · next rest heq =>
      rw [heq] at hbf
      injection hbf with _ hrest
      exact (matchBodyCloseFlags_iff rest).mpr ⟨b, f, hrest, hbne, hb, hf⟩
    · next hno =>
      exact (hno (b ++ '/' :: f) hbf).elim

/-- Claim C2: the query classifier treats an expression not beginning with `/`
and containing no `(` as a substring filter; otherwise an expression of the
shape `/<body>/<flags>` with a nonempty body and flags drawn from g, i, m as a
regular-expression filter; otherwise as a tree expression over the database
node tree. -/
theorem query_classification (expr : String) :
    (classifyQuery expr = QueryKind.substringFilter ↔
      (expr.data.head? ≠ some '/' ∧ '(' ∉ expr.data)) ∧
    (classifyQuery expr = QueryKind.regexFilter ↔
      (¬(expr.data.head? ≠ some '/' ∧ '(' ∉ expr.data) ∧ MatchesRegexPattern expr)) ∧
    (classifyQuery expr = QueryKind.treeExpression ↔
      (¬(expr.data.head? ≠ some '/' ∧ '(' ∉ expr.data) ∧ ¬MatchesRegexPattern expr)) := by
  unfold classifyQuery
  by_cases h1 : expr.data.head? ≠ some '/' ∧ '(' ∉ expr.data
  · rw [if_pos h1]
    exact ⟨by simp [h1], by simp [h1], by simp [h1]⟩
  · rw [if_neg h1]
    by_cases h2 : regexFilterTest expr = true
    · rw [if_pos h2]
      have hm := (regexFilterTest_iff expr).mp h2
      exact ⟨by simp [h1], by simp [h1, hm], by simp [hm]⟩
    · rw [if_neg h2]
      have hm : ¬MatchesRegexPattern expr := fun hmm => h2 ((regexFilterTest_iff expr).mpr hmm)
      exact ⟨by simp [h1], by simp [hm], by simp [h1, hm]⟩

theorem find?_map_invariant {α : Type} (p : α → Bool) (f : α → α) (l : List α)
    (hpres : ∀ a, p (f a) = p a) (hfix : ∀ a, p a = true → f a = a) :
    (l.map f).find? p = l.find? p := by
  induction l with
  | nil => rfl
  | cons a l ih =>
    rw [List.map_cons]
    by_cases h : p a = true
    · rw [List.find?_cons_of_pos _ (by rw [hpres]; exact h),
        List.find?_cons_of_pos _ h, hfix a h]
    · rw [List.find?_cons_of_neg _ (by rw [hpres]; exact h),
        List.find?_cons_of_neg _ h, ih]

theorem jsSet_cons_of_ne (p : String × Option String) (rest : FlowData)
    (k : String) (v : Option String) (h : (p.1 == k) = false) :
    jsSet (p :: rest) k v = p :: jsSet rest k v := by
  rw [jsSet, jsSet]
  by_cases hany : (rest.any fun q => q.1 == k) = true
  · rw [if_pos (by simp [List.any_cons, h, hany]), if_pos hany, List.map_cons, if_neg (by simp [h])]
  · rw [if_neg (by simp [List.any_cons, h, hany]), if_neg hany, List.cons_append]

theorem jsGet_jsSet_self (d : FlowData) (k : String) (v : Option String) :
    jsGet (jsSet d k v) k = some v := by
  induction d with
  | nil => simp [jsSet, jsGet]
  | cons p rest ih =>
    by_cases h : (p.1 == k) = true
    · have hany : ((p :: rest).any fun q => q.1 == k) = true := by
        simp [List.any_cons, h]
      rw [jsSet, if_pos hany, List.map_cons, if_pos h, jsGet,
        List.find?_cons_of_pos _ (by simp)]
      rfl
    · rw [jsSet_cons_of_ne p rest k v (by simpa using h), jsGet,
        List.find?_cons_of_neg _ (by simpa using h)]
      rw [jsGet] at ih
      exact ih

theorem jsGet_jsSet_other (d : FlowData) (k k2 : String) (v : Option String)
    (hk : k2 ≠ k) :
    jsGet (jsSet d k v) k2 = jsGet d k2 := by
  rw [jsSet]
  by_cases hany : (d.any fun q => q.1 == k) = true
  · rw [if_pos hany, jsGet, jsGet, find?_map_invariant]
    · intro a
      by_cases ha : (a.1 == k) = true
      · rw [if_pos ha]
        have h1 : a.1 = k := beq_iff_eq.mp ha
        simp [h1, Ne.symm hk]
      · rw [if_neg ha]
    · intro a hpa
      have h1 : a.1 = k2 := beq_iff_eq.mp hpa
      rw [if_neg]
      simp [h1, hk]
  · rw [if_neg hany, jsGet, jsGet, List.find?_append]
    have hkk : (k == k2) = false := beq_eq_false_iff_ne.mpr (Ne.symm hk)
    have hrh : List.find? (fun q => q.1 == k2) [(k, v)] = none := by
      simp [List.find?, hkk]
    rw [hrh, Option.or_none]

theorem getLast?_cons_eq (a : α) (l : List α) :
    (a :: l).getLast? = some (l.getLast?.getD a) := by
  induction l generalizing a with
  | nil => rfl
  | cons b l ih =>
    rw [List.getLast?_cons_cons, ih b]
    rfl

theorem jsGet_setAll (ps : List (String × Option String)) (d : FlowData) (k : String) :
    jsGet (setAll d ps) k =
      ((ps.filter fun p => p.1 == k).getLast?.elim (jsGet d k) fun p => some p.2) := by
  induction ps generalizing d with
  | nil => rfl
  | cons p rest ih =>
    have hstep : setAll d (p :: rest) = setAll (jsSet d p.1 p.2) rest := rfl
    rw [hstep, ih, List.filter_cons]
    by_cases hp : (p.1 == k) = true
    · have hp1 : p.1 = k := beq_iff_eq.mp hp
      rw [if_pos hp, getLast?_cons_eq]
      cases hLast : (rest.filter fun q => q.1 == k).getLast? with
      | some q => simp [hLast]
      | none =>
        simp only [hLast, Option.getD_none, Option.elim_some, Option.elim_none]
        rw [hp1, jsGet_jsSet_self]
    · rw [if_neg hp]
      cases hLast : (rest.filter fun q => q.1 == k).getLast? with
      | some q => simp [hLast]
      | none =>
        simp only [hLast, Option.elim_none]
        rw [jsGet_jsSet_other d p.1 k p.2 fun hkk => by simp [hkk] at hp]

theorem mergeDataEvent_eq_setAll (d : FlowData) (e : Event) :
    mergeDataEvent d e = setAll d (flowDataPairs e) := by
  rw [mergeDataEvent, flowDataPairs]
  by_cases h : e.isInternal = true
  · rw [if_pos h, if_pos h]
    rfl
  · rw [if_neg h, if_neg h, setAll, List.foldl_map]

theorem setAll_append (d : FlowData) (ps qs : List (String × Option String)) :
    setAll d (ps ++ qs) = setAll (setAll d ps) qs := by
  rw [setAll, setAll, setAll, List.foldl_append]

theorem foldl_mergeDataEvent_eq (evs : List Event) (d : FlowData) :
    evs.foldl mergeDataEvent d = setAll d (evs.flatMap flowDataPairs) := by
  induction evs generalizing d with
  | nil => rfl
  | cons e evs ih =>
    rw [List.foldl_cons, List.flatMap_cons, setAll_append, ih, mergeDataEvent_eq_setAll]

/-- Claim C4: `Flow.getData()` is the left-fold of data-event merges over the
data-event list in insertion order: an `INTERNAL` data event merges the single
pair taken from its `name` and `value` arguments, a user-defined data event
merges every schema argument except the first (the flow id), and when two
events set the same key the later value overrides the earlier one in the
returned map. -/
theorem flow_getData_fold (f : Flow) (k : String) :
    Flow.getData f = setAll [] ((f.dataEvents.getD []).flatMap flowDataPairs) ∧
    jsGet (Flow.getData f) k =
      (((f.dataEvents.getD []).flatMap flowDataPairs).filter
          fun p => p.1 == k).getLast?.map (fun p => p.2) := by
  have h1 : Flow.getData f = setAll [] ((f.dataEvents.getD []).flatMap flowDataPairs) := by
    cases hde : f.dataEvents with
    | none =>
      simp only [Flow.getData, hde]
      rfl
    | some evs =>
      simp only [Flow.getData, hde, Option.getD_some]
      rw [foldl_mergeDataEvent_eq]
  refine ⟨h1, ?_⟩
  rw [h1, jsGet_setAll]
  cases hLast : (((f.dataEvents.getD []).flatMap flowDataPairs).filter
      fun p => p.1 == k).getLast? with
  | some q => simp
  | none => simp [jsGet]

theorem modifyAt_length (f : α → α) (i : Nat) (l : List α) :
    (modifyAt f i l).length = l.length := by
  induction l generalizing i with
  | nil => cases i <;> rfl
  | cons x xs ih =>
    cases i with
    | zero => rfl
    | succ n => simp [modifyAt, ih]

theorem modifyAt_map (g : α → β) (f : α → α) (i : Nat) (l : List α)
    (h : ∀ a, g (f a) = g a) :
    (modifyAt f i l).map g = l.map g := by
  induction l generalizing i with
  | nil => cases i <;> rfl
  | cons x xs ih =>
    cases i with
    | zero => simp [modifyAt, h]
    | succ n => simp [modifyAt, ih]

theorem modifyAt_getElem?_ne (f : α → α) (i j : Nat) (l : List α) (h : i ≠ j) :
    (modifyAt f i l)[j]? = l[j]? := by
  induction l generalizing i j with
  | nil => cases i <;> rfl
  | cons x xs ih =>
    cases i with
    | zero =>
      cases j with
      | zero => exact absurd rfl h
      | succ m => simp [modifyAt]
    | succ n =>
      cases j with
      | zero => simp [modifyAt]
      | succ m =>
        simp only [modifyAt, List.getElem?_cons_succ]
        exact ih n m fun hnm => h (by rw [hnm])

theorem modifyAt_getElem?_self (f : α → α) (i : Nat) (l : List α) :
    (modifyAt f i l)[i]? = l[i]?.map f := by
  induction l generalizing i with
  | nil => cases i <;> rfl
  | cons x xs ih =>
    cases i with
    | zero => simp [modifyAt]
    | succ n => simpa [modifyAt] using ih n

theorem insertIntoTarget_eventTargets (s : DbState) (e : Event) (r : TargetRef) :
    (insertIntoTarget s e r).eventTargets = s.eventTargets := by
  cases r <;> rfl

theorem dispatch_eventTargets (e : Event) (rs : List TargetRef) (s : DbState) :
    (rs.foldl (fun s2 r => insertIntoTarget s2 e r) s).eventTargets =
      s.eventTargets := by
  induction rs generalizing s with
  | nil => rfl
  | cons r rs ih => rw [List.foldl_cons, ih, insertIntoTarget_eventTargets]

theorem insertIntoTarget_zones_map (s : DbState) (e : Event) (r : TargetRef) :
    (insertIntoTarget s e r).zoneIndices.map ZoneIndex.zone =
      s.zoneIndices.map ZoneIndex.zone := by
  cases r with
  | summary => rfl
  | evIndex i => rfl
  | zone i => exact modifyAt_map _ _ i _ fun z => rfl

theorem dispatch_zones_map (e : Event) (rs : List TargetRef) (s : DbState) :
    (rs.foldl (fun s2 r => insertIntoTarget s2 e r) s).zoneIndices.map ZoneIndex.zone =
      s.zoneIndices.map ZoneIndex.zone := by
  induction rs generalizing s with
  | nil => rfl
  | cons r rs ih => rw [List.foldl_cons, ih, insertIntoTarget_zones_map]

theorem dispatch_zones_length (e : Event) (rs : List TargetRef) (s : DbState) :
    (rs.foldl (fun s2 r => insertIntoTarget s2 e r) s).zoneIndices.length =
      s.zoneIndices.length := by
  have h := dispatch_zones_map e rs s
  have h2 := congrArg List.length h
  simpa using h2

theorem insertIntoTarget_zoneAt (s : DbState) (e : Event) (r : TargetRef) (j : Nat)
    (h : ∀ i, r = TargetRef.zone i → i ≠ j) :
    (insertIntoTarget s e r).zoneIndices[j]? = s.zoneIndices[j]? := by
  cases r with
  | summary => rfl
  | evIndex i => rfl
  | zone i => exact modifyAt_getElem?_ne _ i j _ (h i rfl)

theorem dispatch_zoneAt (e : Event) (rs : List TargetRef) (s : DbState) (j : Nat)
    (h : ∀ i, TargetRef.zone i ∈ rs → i ≠ j) :
    (rs.foldl (fun s2 r => insertIntoTarget s2 e r) s).zoneIndices[j]? =
      s.zoneIndices[j]? := by
  induction rs generalizing s with
  | nil => rfl
  | cons r rs ih =>
    rw [List.foldl_cons, ih _ fun i hi => h i (List.mem_cons_of_mem _ hi),
      insertIntoTarget_zoneAt _ _ _ _ fun i hri => h i (hri ▸ List.mem_cons_self _ _)]

theorem endInsertingTarget_fields (s : DbState) (r : TargetRef) :
    (endInsertingTarget s r).eventTargets = s.eventTargets ∧
    (endInsertingTarget s r).insertedEventCount = s.insertedEventCount ∧
    (endInsertingTarget s r).beginningZoneCount = s.beginningZoneCount ∧
    (endInsertingTarget s r).zoneIndices.map (fun z => z.events.length) =
      s.zoneIndices.map (fun z => z.events.length) ∧
    (endInsertingTarget s r).zoneIndices.map ZoneIndex.zone =
      s.zoneIndices.map ZoneIndex.zone := by
  cases r with
  | summary => exact ⟨rfl, rfl, rfl, rfl, rfl⟩
  | evIndex i => exact ⟨rfl, rfl, rfl, rfl, rfl⟩
  | zone i =>
    refine ⟨rfl, rfl, rfl, ?_, ?_⟩
    · exact modifyAt_map _ _ i _ fun z =>
        (List.mergeSort_perm z.events timeLE).length_eq
    · exact modifyAt_map _ _ i _ fun z => rfl

theorem foldl_endInsertingTarget_fields (rs : List TargetRef) (s : DbState) :
    (rs.foldl endInsertingTarget s).eventTargets = s.eventTargets ∧
    (rs.foldl endInsertingTarget s).insertedEventCount = s.insertedEventCount ∧
    (rs.foldl endInsertingTarget s).beginningZoneCount = s.beginningZoneCount ∧
    (rs.foldl endInsertingTarget s).zoneIndices.map (fun z => z.events.length) =
      s.zoneIndices.map (fun z => z.events.length) ∧
    (rs.foldl endInsertingTarget s).zoneIndices.map ZoneIndex.zone =
      s.zoneIndices.map ZoneIndex.zone := by
  induction rs generalizing s with
  | nil => exact ⟨rfl, rfl, rfl, rfl, rfl⟩
  | cons r rs ih =>
    rcases endInsertingTarget_fields s r with ⟨h1, h2, h3, h4, h5⟩
    rcases ih (endInsertingTarget s r) with ⟨g1, g2, g3, g4, g5⟩
    exact ⟨g1.trans h1, g2.trans h2, g3.trans h3, g4.trans h4, g5.trans h5⟩

theorem endInsertingDownFrom_calls (rs : List TargetRef) (st : DbState) (n : Nat)
    (h : n ≤ rs.length) :
    (endInsertingDownFrom rs st n).2 = (rs.take n).reverse := by
  induction n generalizing st with
  | zero => rfl
  | succ n ih =>
    have hn : n < rs.length := Nat.lt_of_lt_of_le (Nat.lt_succ_self n) h
    have hget : rs.getD n TargetRef.summary = rs[n] := by
      rw [List.getD_eq_getElem?_getD, List.getElem?_eq_getElem hn]
      rfl
    simp only [endInsertingDownFrom]
    rw [ih _ (Nat.le_of_lt hn), hget, List.take_succ,
      List.getElem?_eq_getElem hn, Option.toList_some, List.reverse_append,
      List.reverse_singleton, List.singleton_append]

theorem endInsertingDownFrom_state (rs : List TargetRef) (st : DbState) (n : Nat)
    (h : n ≤ rs.length) :
    (endInsertingDownFrom rs st n).1 =
      ((rs.take n).reverse).foldl endInsertingTarget st := by
  induction n generalizing st with
  | zero => rfl
  | succ n ih =>
    have hn : n < rs.length := Nat.lt_of_lt_of_le (Nat.lt_succ_self n) h
    have hget : rs.getD n TargetRef.summary = rs[n] := by
      rw [List.getD_eq_getElem?_getD, List.getElem?_eq_getElem hn]
      rfl
    simp only [endInsertingDownFrom]
    rw [ih _ (Nat.le_of_lt hn), hget, List.take_succ,
      List.getElem?_eq_getElem hn, Option.toList_some, List.reverse_append,
      List.reverse_singleton, List.singleton_append, List.foldl_cons]

theorem assignPositions_length (l : List Event) (pos : Nat) :
    (assignPositions l pos).length = l.length := by
  induction l generalizing pos with
  | nil => rfl
  | cons e rest ih => simp [assignPositions, ih]

theorem assignPositions_positions (l : List Event) (pos : Nat) :
    (assignPositions l pos).map (fun e => e.position) = List.range' pos l.length := by
  induction l generalizing pos with
  | nil => rfl
  | cons e rest ih =>
    rw [assignPositions, List.map_cons, ih, List.length_cons, List.range'_succ]

theorem renumberZones_lengths (zs : List ZoneIndex) (pos : Nat) :
    (renumberZones zs pos).map (fun z => z.events.length) =
      zs.map fun z => z.events.length := by
  induction zs generalizing pos with
  | nil => rfl
  | cons z zs ih =>
    rw [renumberZones, List.map_cons, List.map_cons, ih]
    simp [ZoneIndex.renumber, assignPositions_length]

theorem renumberZones_zone_map (zs : List ZoneIndex) (pos : Nat) :
    (renumberZones zs pos).map ZoneIndex.zone = zs.map ZoneIndex.zone := by
  induction zs generalizing pos with
  | nil => rfl
  | cons z zs ih =>
    rw [renumberZones, List.map_cons, List.map_cons, ih]
    rfl

theorem renumberZones_positions (zs : List ZoneIndex) (pos : Nat) :
    ((renumberZones zs pos).flatMap fun z => z.events.map fun e => e.position) =
      List.range' pos ((zs.map fun z => z.events.length).sum) := by
  induction zs generalizing pos with
  | nil => rfl
  | cons z zs ih =>
    rw [renumberZones, List.flatMap_cons, ih, List.map_cons, List.sum_cons]
    have h1 : (ZoneIndex.renumber z pos).1.events.map (fun e => e.position) =
        List.range' pos z.events.length := by
      simp [ZoneIndex.renumber, assignPositions_positions]
    have h2 : (ZoneIndex.renumber z pos).2 = pos + z.events.length := rfl
    rw [h1, h2]
    have := List.range'_append pos z.events.length
      ((zs.map fun z => z.events.length).sum) 1
    simp only [one_mul] at this
    rw [this, Nat.add_comm ((zs.map fun z => z.events.length).sum) z.events.length]

theorem renumberZones_length (zs : List ZoneIndex) (pos : Nat) :
    (renumberZones zs pos).length = zs.length := by
  have h := congrArg List.length (renumberZones_zone_map zs pos)
  simpa using h

/-- Claim C7: `endEventBatch()` calls `endInserting()` on the targets in
reverse order of the target list, renumbers positions starting at 1 across the
zones in order, emits `ZONES_ADDED` carrying exactly the zone indices added
since the batch began when the zone count changed, emits `INVALIDATED` exactly
when at least one event was inserted in the batch, and clears the target
list. -/
theorem endEventBatch_spec (st : DbState) :
    (Listener.endEventBatch st).2.2 = st.eventTargets.reverse ∧
    ((Listener.endEventBatch st).1.zoneIndices.flatMap fun z =>
        z.events.map fun e => e.position) =
      List.range' 1 ((st.zoneIndices.map fun z => z.events.length).sum) ∧
    (Listener.endEventBatch st).2.1 =
      (if st.beginningZoneCount ≠ st.zoneIndices.length then
        [DbEvent.zonesAdded
          ((Listener.endEventBatch st).1.zoneIndices.drop st.beginningZoneCount)]
       else []) ++
      (if st.insertedEventCount ≠ 0 then [DbEvent.invalidated] else []) ∧
    (Listener.endEventBatch st).1.eventTargets = [] ∧
    (Listener.endEventBatch st).1.zoneIndices.length = st.zoneIndices.length := by
  simp only [Listener.endEventBatch]
  rw [endInsertingDownFrom_state _ _ _ (Nat.le_refl _),
    endInsertingDownFrom_calls _ _ _ (Nat.le_refl _), List.take_length]
  rcases foldl_endInsertingTarget_fields st.eventTargets.reverse
    { st with insertingEvents := false } with ⟨f1, f2, f3, f4, f5⟩
  set st1 : DbState :=
    (st.eventTargets.reverse).foldl endInsertingTarget
      { st with insertingEvents := false } with hst1
  have f2s : st1.insertedEventCount = st.insertedEventCount := f2
  have f4s : st1.zoneIndices.map (fun z => z.events.length) =
      st.zoneIndices.map fun z => z.events.length := f4
  have hlen1 : st1.zoneIndices.length = st.zoneIndices.length := by
    have := congrArg List.length f4s
    simpa using this
  have hcnt : (EventDatabase.renumber st1).insertedEventCount =
      st.insertedEventCount := f2s
  have hzlen : (EventDatabase.renumber st1).zoneIndices.length =
      st.zoneIndices.length := by
    show (renumberZones st1.zoneIndices 1).length = st.zoneIndices.length
    rw [renumberZones_length, hlen1]
  have hpos : ((EventDatabase.renumber st1).zoneIndices.flatMap fun z =>
      z.events.map fun e => e.position) =
      List.range' 1 ((st.zoneIndices.map fun z => z.events.length).sum) := by
    show ((renumberZones st1.zoneIndices 1).flatMap fun z =>
      z.events.map fun e => e.position) = _
    rw [renumberZones_positions, f4s]
  refine ⟨rfl, ?_, ?_, trivial, ?_⟩
  · rw [apply_ite DbState.zoneIndices]
    simp only [ite_self]
    exact hpos
  · rw [apply_ite DbState.zoneIndices]
    simp only [ite_self, hcnt, hzlen]
  · rw [apply_ite DbState.zoneIndices]
    simp only [ite_self, hzlen]

/-- Claim C8: position 0 is reserved for the database root node, and on every
`endEventBatch` the renumber pass reassigns positions starting at 1 across the
zone indices in stored order, so that after the batch the positions across all
zones are exactly `1, 2, ..., N` in order — dense, without gaps or
duplicates. -/
theorem renumber_positions_dense (st : DbState) :
    EventDatabase.getNodePosition = 0 ∧
    ((Listener.endEventBatch st).1.zoneIndices.flatMap fun z =>
        z.events.map fun e => e.position) =
      List.range' 1
        (((Listener.endEventBatch st).1.zoneIndices.map fun z =>
          z.events.length).sum) ∧
    ((Listener.endEventBatch st).1.zoneIndices.flatMap fun z =>
        z.events.map fun e => e.position).Nodup := by
  simp only [Listener.endEventBatch]
  rw [endInsertingDownFrom_state _ _ _ (Nat.le_refl _), List.take_length]
  set st1 : DbState :=
    (st.eventTargets.reverse).foldl endInsertingTarget
      { st with insertingEvents := false } with hst1
  have hlens : (EventDatabase.renumber st1).zoneIndices.map
      (fun z => z.events.length) = st1.zoneIndices.map fun z => z.events.length := by
    show (renumberZones st1.zoneIndices 1).map (fun z => z.events.length) = _
    rw [renumberZones_lengths]
  have hpos : ((EventDatabase.renumber st1).zoneIndices.flatMap fun z =>
      z.events.map fun e => e.position) =
      List.range' 1 ((st1.zoneIndices.map fun z => z.events.length).sum) := by
    show ((renumberZones st1.zoneIndices 1).flatMap fun z =>
      z.events.map fun e => e.position) = _
    rw [renumberZones_positions]
  refine ⟨rfl, ?_, ?_⟩
  · rw [apply_ite DbState.zoneIndices]
    simp only [ite_self]
    rw [hpos, hlens]
  · rw [apply_ite DbState.zoneIndices]
    simp only [ite_self]
    rw [hpos]
    exact List.nodup_range' 1 _

theorem foldl_insert_singleton (e : Event) (s : DbState) (t : TargetRef) :
    List.foldl (fun s2 r => insertIntoTarget s2 e r) s [t] = insertIntoTarget s e t := rfl

theorem insertIntoTarget_zone_zoneIndices (s : DbState) (e : Event) (i : Nat) :
    (insertIntoTarget s e (TargetRef.zone i)).zoneIndices =
      modifyAt (fun z => z.insertEvent e) i s.zoneIndices := rfl

/-- Claim C6: a `wtf.zone#create` event naming an unseen zone makes
`traceEvent` create a fresh `ZoneIndex` in inserting mode, append it to both
the zone list and the in-flight target list, and fan the event out to the
targets (including the fresh index, which therefore holds the create event);
a duplicate create leaves the zone list and the target list unchanged.  The
fresh case assumes the in-flight zone targets reference existing zones, which
`beginEventBatch` guarantees. -/
theorem traceEvent_zone_creation (st : DbState) (e : Event)
    (hz : e.isZoneCreateType = true) :
    ((st.zoneIndices.any fun z => z.zone == e.value) = false →
      (∀ i, TargetRef.zone i ∈ st.eventTargets → i < st.zoneIndices.length) →
      (Listener.traceEvent st e).zoneIndices.map ZoneIndex.zone =
        st.zoneIndices.map ZoneIndex.zone ++ [e.value] ∧
      (Listener.traceEvent st e).zoneIndices.getLast? =
        some ⟨e.value, true, [e], ⟨[]⟩⟩ ∧
      (Listener.traceEvent st e).eventTargets =
        st.eventTargets ++ [TargetRef.zone st.zoneIndices.length]) ∧
    ((st.zoneIndices.any fun z => z.zone == e.value) = true →
      (Listener.traceEvent st e).zoneIndices.map ZoneIndex.zone =
        st.zoneIndices.map ZoneIndex.zone ∧
      (Listener.traceEvent st e).eventTargets = st.eventTargets) := by
  constructor
  · intro hfresh hvalid
    have hfresh2 : ¬((st.zoneIndices.any fun z => z.zone == e.value) = true) := by
      simp [hfresh]
    simp only [Listener.traceEvent]
    rw [if_pos hz, if_neg hfresh2]
    refine ⟨?_, ?_, ?_⟩
    · rw [dispatch_zones_map]
      simp
    · have hlen : ((st.eventTargets ++ [TargetRef.zone st.zoneIndices.length]).foldl
          (fun s r => insertIntoTarget s e r)
          { st with
              dirtyTimeStart :=
                if e.time < st.dirtyTimeStart then e.time else st.dirtyTimeStart,
              dirtyTimeEnd :=
                if e.time > st.dirtyTimeEnd then e.time else st.dirtyTimeEnd,
              insertedEventCount := st.insertedEventCount + 1,
              totalEventCount :=
                if !(e.isInternal || e.isScopeLeaveType) then st.totalEventCount + 1
                else st.totalEventCount,
              zoneIndices := st.zoneIndices ++ [⟨e.value, true, [], ⟨[]⟩⟩],
              eventTargets :=
                st.eventTargets ++ [TargetRef.zone st.zoneIndices.length] }).zoneIndices.length =
          st.zoneIndices.length + 1 := by
        rw [dispatch_zones_length]
        simp
      rw [List.getLast?_eq_getElem?, hlen, Nat.add_sub_cancel, List.foldl_append,
        foldl_insert_singleton, insertIntoTarget_zone_zoneIndices,
        modifyAt_getElem?_self,
        dispatch_zoneAt _ _ _ _ fun i hi => Nat.ne_of_lt (hvalid i hi)]
      simp [List.getElem?_concat_length, ZoneIndex.insertEvent]
    · rw [dispatch_eventTargets]
  · intro hdup
    simp only [Listener.traceEvent]
    rw [if_pos hz, if_pos hdup]
    exact ⟨by rw [dispatch_zones_map], by rw [dispatch_eventTargets]⟩

/-- A concrete `wtf.zone#create` event naming zone 5, used as witness
input. -/
def zcEvent : Event :=
  ⟨0, ⟨"wtf.zone#create", 0, []⟩, [], 0, 5⟩

/-- Witness for `traceEvent_zone_creation` at a concrete input: on the fresh
database, the create event for zone 5 appends a zone index holding exactly the
create event and registers it as a target. -/
theorem traceEvent_zone_creation_witness :
    zcEvent.isZoneCreateType = true ∧
    (Listener.traceEvent initialDbState zcEvent).zoneIndices.map ZoneIndex.zone = [5] ∧
    (Listener.traceEvent initialDbState zcEvent).zoneIndices.getLast? =
      some ⟨5, true, [zcEvent], ⟨[]⟩⟩ ∧
    (Listener.traceEvent initialDbState zcEvent).eventTargets = [TargetRef.zone 0] := by
  have hz : zcEvent.isZoneCreateType = true := by decide
  have h := (traceEvent_zone_creation initialDbState zcEvent hz).1 (by decide)
    (fun i hi => absurd hi (by simp [initialDbState]))
  rcases h with ⟨h1, h2, h3⟩
  refine ⟨hz, by simpa [initialDbState] using h1, by simpa using h2,
    by simpa [initialDbState] using h3⟩

theorem eventComparerLE_trans (a b c : ResultItem)
    (h1 : eventComparerLE a b = true) (h2 : eventComparerLE b c = true) :
    eventComparerLE a c = true := by
  simp only [eventComparerLE, decide_eq_true_eq] at h1 h2 ⊢
  omega

theorem eventComparerLE_total (a b : ResultItem) :
    (eventComparerLE a b || eventComparerLE b a) = true := by
  simp only [eventComparerLE, Bool.or_eq_true, decide_eq_true_eq]
  omega

theorem event_of_ite (e : Event) :
    (if e.isScopeEnterEvent then ResultItem.scopeOf e
     else ResultItem.plain e).event = e := by
  split <;> rfl

theorem filterFun_eq_some (evaluator : Option (Event → Bool)) (e : Event)
    (item : ResultItem) :
    ((if e.isInternal then none
      else if evaluatorMatches evaluator e then
        some (if e.isScopeEnterEvent then ResultItem.scopeOf e
              else ResultItem.plain e)
      else none) = some item) ↔
      (e.isInternal = false ∧ evaluatorMatches evaluator e = true ∧
        item = if e.isScopeEnterEvent then ResultItem.scopeOf e
               else ResultItem.plain e) := by
  by_cases h1 : e.isInternal = true
  · simp [h1]
  · simp only [Bool.not_eq_true] at h1
    by_cases h2 : evaluatorMatches evaluator e = true
    · constructor
      · intro h
        rw [if_neg (by simp [h1]), if_pos h2] at h
        exact ⟨h1, h2, (Option.some_inj.mp h).symm⟩
      · rintro ⟨-, -, h3⟩
        rw [if_neg (by simp [h1]), if_pos h2, h3]
    · simp [h1, h2]

theorem mem_runFilterQuery_iff (zones : List ZoneIndex)
    (evaluator : Option (Event → Bool)) (item : ResultItem) :
    item ∈ runFilterQuery zones evaluator ↔
      ∃ z ∈ zones, ∃ e ∈ z.events, e.isInternal = false ∧
        evaluatorMatches evaluator e = true ∧
        item = (if e.isScopeEnterEvent then ResultItem.scopeOf e
                else ResultItem.plain e) := by
  rw [runFilterQuery, List.Perm.mem_iff (List.mergeSort_perm _ _)]
  simp only [List.mem_flatMap, filterZoneEvents, List.mem_filterMap,
    filterFun_eq_some]

/-- Claim C3: a filter query result contains no `INTERNAL` event, every
element stems from an event matching the evaluator (a null evaluator matches
every non-`INTERNAL` event, all of which appear in the result), matching
scope-enter events are replaced by their reconstructed scope, and the result
is sorted by the database event comparator (time ascending, position
ascending). -/
theorem filter_query_result (zones : List ZoneIndex)
    (evaluator : Option (Event → Bool)) :
    (∀ item ∈ runFilterQuery zones evaluator, item.event.isInternal = false) ∧
    (∀ item ∈ runFilterQuery zones evaluator,
      evaluatorMatches evaluator item.event = true) ∧
    (∀ item ∈ runFilterQuery zones evaluator,
      item = if item.event.isScopeEnterEvent then ResultItem.scopeOf item.event
             else ResultItem.plain item.event) ∧
    (∀ z ∈ zones, ∀ e ∈ z.events, e.isInternal = false →
      evaluatorMatches evaluator e = true →
      (if e.isScopeEnterEvent then ResultItem.scopeOf e
       else ResultItem.plain e) ∈ runFilterQuery zones evaluator) ∧
    List.Sorted (fun a b => eventComparerLE a b = true)
      (runFilterQuery zones evaluator) := by
  refine ⟨?_, ?_, ?_, ?_, ?_⟩
  · intro item hitem
    rcases (mem_runFilterQuery_iff zones evaluator item).mp hitem with
      ⟨z, hz, e, he, h1, h2, h3⟩
    rw [h3, event_of_ite]
    exact h1
  · intro item hitem
    rcases (mem_runFilterQuery_iff zones evaluator item).mp hitem with
      ⟨z, hz, e, he, h1, h2, h3⟩
    rw [h3, event_of_ite]
    exact h2
  · intro item hitem
    rcases (mem_runFilterQuery_iff zones evaluator item).mp hitem with
      ⟨z, hz, e, he, h1, h2, h3⟩
    rw [h3, event_of_ite]
  · intro z hz e he h1 h2
    exact (mem_runFilterQuery_iff zones evaluator _).mpr
      ⟨z, hz, e, he, h1, h2, rfl⟩
  · exact List.sorted_mergeSort
      (fun a b c hab hbc => eventComparerLE_trans a b c hab hbc)
      eventComparerLE_total _

/-- Claim C9 (code bug): the empty expression is filter-classified and, per
the spec, parses successfully to a cleared filter whose evaluator is null
("match all").  The filter loop explicitly supports the null evaluator, but
the compiled-form extraction `filter.getEvaluator().toString()` then
dereferences null, so `query` throws a TypeError instead of returning the
`QueryResult` promised for every successfully parsed filter. -/
theorem query_throws_on_matchAll_filter :
    classifyQuery "" ≠ QueryKind.treeExpression ∧
    specParseFilter "" = FilterParse.ok none ∧
    EventDatabase.query specParseFilter (fun _ => "function") (fun _ => [])
      initialDbState "" 0 0 =
      Except.error "TypeError: null has no toString" := by
  refine ⟨by decide, by simp [specParseFilter], ?_⟩
  rfl

end WtfDb
